import Mathlib

/-!
Verification of the diff-truncation engine, prompt builder and structured
response protocol of the commity repository (package internal/ai).

The Go sources embedded here:
- internal/ai/prompt.go : constants MaxDiffSize, ShowLines, SkipLines;
  BuildPrompt, truncateDiff, splitByFiles, truncateFile, truncateHunk.
- internal/ai/openai.go : CommitMessage and its String() rendering,
  SplitCommits, GenerateResult, and the response-handling part of
  Client.GenerateCommitMessage (tool-call dispatch, JSON decoding of the
  two structured shapes, free-form fallback).

Conventions of the embedding:
- Go strings are Lean String; Go byte lengths are modeled as character
  counts (all fixed text in the program is ASCII).
- Line-based processing: Go calls strings.Split(s, "\n") before every
  stage, so stage inputs are given as List String of lines.  A section
  string built as lines each followed by "\n" re-splits into those lines
  plus one trailing empty line; the embedding makes that explicit.
- The strings.Builder accumulation inside truncateHunk is split into a
  data layer (List Item: shown input lines and truncation markers) plus a
  rendering function; the rendered string is exactly the Go output.
-/

namespace Commity

set_option maxRecDepth 40000

/-- prompt.go: max total diff size in characters. -/
def MaxDiffSize : Nat := 12000

/-- prompt.go: lines to show in each segment. -/
def ShowLines : Nat := 100

/-- prompt.go: lines to skip between segments. -/
def SkipLines : Nat := 50

/-- One emitted line of `truncateHunk`: either an input line shown
verbatim, or a truncation marker carrying the 1-based start line, end
line and count of the elided range. -/
inductive Item where
  | content (s : String)
  | marker (startLine endLine count : Nat)
deriving DecidableEq

/-- `true` exactly on shown input lines. -/
def isContentLine : Item → Bool
  | .content _ => true
  | .marker _ _ _ => false

/-- `true` exactly on truncation markers. -/
def isMarker : Item → Bool
  | .content _ => false
  | .marker _ _ _ => true

/-- Rendering of one emitted line; the marker text is the
fmt.Sprintf format used in truncateHunk. -/
def renderItem : Item → String
  | .content s => s
  | .marker a b k =>
      "... [lines " ++ toString a ++ "-" ++ toString b ++ ": " ++ toString k
        ++ " lines skipped - similar changes continue] ..."

/-- Each emitted line is written followed by a newline, as in the Go
builder loop. -/
def renderItems (items : List Item) : String :=
  String.join (items.map (fun it => renderItem it ++ "\n"))

/-- End of the current show segment: Go computes end := i + ShowLines,
clamped to len(lines). -/
def showEnd (len i : Nat) : Nat := min (i + ShowLines) len

/-- End of the current skip segment starting at e: Go computes
skipEnd := i + SkipLines, clamped to len(lines). -/
def skipStop (len e : Nat) : Nat := min (e + SkipLines) len

/-- The main loop of truncateHunk (prompt.go lines 179-208), emitting
alternating show segments and skip markers.  `i` is the cursor into
`lines`; `n` is the Go variable lineNum (lines accounted for so far,
shown or skipped).  The `fuel` argument only bounds the number of
iterations so that the recursion is structural and computable; the
cursor advances by at least one line per iteration, so a fuel of
`lines.length - i` (supplied by `hunkLoop` below) is always enough and
the value does not depend on it (`hunkLoopF_congr`). -/
def hunkLoopF (lines : List String) : Nat → Nat → Nat → List Item
  | 0, _, _ => []
  | fuel + 1, i, n =>
    if i < lines.length then
      if showEnd lines.length i < lines.length then
        ((lines.drop i).take (showEnd lines.length i - i)).map Item.content ++
        (if 0 < skipStop lines.length (showEnd lines.length i) - showEnd lines.length i then
          [Item.marker (n + (showEnd lines.length i - i) + 1)
            (n + (showEnd lines.length i - i) +
              (skipStop lines.length (showEnd lines.length i) - showEnd lines.length i))
            (skipStop lines.length (showEnd lines.length i) - showEnd lines.length i)]
        else []) ++
        hunkLoopF lines fuel (skipStop lines.length (showEnd lines.length i))
          (n + (showEnd lines.length i - i) +
            (skipStop lines.length (showEnd lines.length i) - showEnd lines.length i))
      else
        ((lines.drop i).take (showEnd lines.length i - i)).map Item.content
    else []

/-- The loop of truncateHunk, started with enough fuel. -/
def hunkLoop (lines : List String) (i n : Nat) : List Item :=
  hunkLoopF lines (lines.length - i) i n

lemma hunkLoopF_congr (lines : List String) : ∀ fuel fuel' i n,
    lines.length - i ≤ fuel → lines.length - i ≤ fuel' →
    hunkLoopF lines fuel i n = hunkLoopF lines fuel' i n := by
  intro fuel
  induction fuel with
  | zero =>
    intro fuel' i n h1 h2
    cases fuel' with
    | zero => rfl
    | succ f' =>
      rw [hunkLoopF, hunkLoopF]
      rw [if_neg (by omega)]
  | succ f ihf =>
    intro fuel' i n h1 h2
    cases fuel' with
    | zero =>
      rw [hunkLoopF, hunkLoopF]
      rw [if_neg (by omega)]
    | succ f' =>
      rw [hunkLoopF, hunkLoopF]
      by_cases hi : i < lines.length
      · rw [if_pos hi, if_pos hi]
        by_cases hs : showEnd lines.length i < lines.length
        · rw [if_pos hs, if_pos hs]
          have hrec := ihf f'
            (skipStop lines.length (showEnd lines.length i))
            (n + (showEnd lines.length i - i) +
              (skipStop lines.length (showEnd lines.length i) - showEnd lines.length i))
            (by simp only [showEnd, skipStop, ShowLines, SkipLines] at *; omega)
            (by simp only [showEnd, skipStop, ShowLines, SkipLines] at *; omega)
          rw [hrec]
        · rw [if_neg hs, if_neg hs]
      · rw [if_neg hi, if_neg hi]

/-- Unfolding equation for `hunkLoop`, hiding the fuel. -/
lemma hunkLoop_eq (lines : List String) (i n : Nat) :
    hunkLoop lines i n =
      if i < lines.length then
        if showEnd lines.length i < lines.length then
          ((lines.drop i).take (showEnd lines.length i - i)).map Item.content ++
          (if 0 < skipStop lines.length (showEnd lines.length i) - showEnd lines.length i then
            [Item.marker (n + (showEnd lines.length i - i) + 1)
              (n + (showEnd lines.length i - i) +
                (skipStop lines.length (showEnd lines.length i) - showEnd lines.length i))
              (skipStop lines.length (showEnd lines.length i) - showEnd lines.length i)]
          else []) ++
          hunkLoop lines (skipStop lines.length (showEnd lines.length i))
            (n + (showEnd lines.length i - i) +
              (skipStop lines.length (showEnd lines.length i) - showEnd lines.length i))
        else
          ((lines.drop i).take (showEnd lines.length i - i)).map Item.content
      else [] := by
  rw [hunkLoop, hunkLoop]
  cases hfuel : lines.length - i with
  | zero =>
    rw [hunkLoopF]
    rw [if_neg (by omega)]
  | succ f =>
    rw [hunkLoopF]
    by_cases hi : i < lines.length
    · rw [if_pos hi, if_pos hi]
      by_cases hs : showEnd lines.length i < lines.length
      · rw [if_pos hs, if_pos hs]
        have hrec := hunkLoopF_congr lines f
          (lines.length - skipStop lines.length (showEnd lines.length i))
          (skipStop lines.length (showEnd lines.length i))
          (n + (showEnd lines.length i - i) +
            (skipStop lines.length (showEnd lines.length i) - showEnd lines.length i))
          (by simp only [showEnd, skipStop, ShowLines, SkipLines] at *; omega)
          (Nat.le_refl _)
        rw [hrec]
      · rw [if_neg hs, if_neg hs]
    · rw [if_neg hi, if_neg hi]

/-- truncateHunk (prompt.go lines 169-211).  `lines` is the hunk as Go
receives it: the @@ header line followed by the content lines.  Small
hunks are passed through as strings.Join(lines, "\n") + "\n". -/
def truncateHunk (lines : List String) : String :=
  if lines.length ≤ ShowLines then
    String.intercalate "\n" lines ++ "\n"
  else
    renderItems (hunkLoop lines 0 0)

/-- The emitted lines of `truncateHunk` as data (shown lines and
markers); rendering this list gives the string output. -/
def truncateHunkItems (lines : List String) : List Item :=
  if lines.length ≤ ShowLines then lines.map Item.content
  else hunkLoop lines 0 0

/-- Replace every item by the input lines it stands for: a shown line by
itself, a marker by the slice of `lines` its stated 1-based range
covers.  If the truncation is consistent this recovers the input. -/
def expandItems (lines : List String) (items : List Item) : List String :=
  items.flatMap (fun it =>
    match it with
    | .content s => [s]
    | .marker a _ k => (lines.drop (a - 1)).take k)

/-- Number of input lines emitted by the show/skip loop on a tail of
`r` remaining lines (header counted like any other line). -/
def showTotal (r : Nat) : Nat :=
  if r ≤ ShowLines then r
  else ShowLines + showTotal (r - (ShowLines + SkipLines))
termination_by r
decreasing_by
  simp only [ShowLines, SkipLines] at *
  omega

/-- Number of truncation markers emitted by the show/skip loop on a tail
of `r` remaining lines. -/
def markerTotal (r : Nat) : Nat :=
  if r ≤ ShowLines then 0
  else 1 + markerTotal (r - (ShowLines + SkipLines))
termination_by r
decreasing_by
  simp only [ShowLines, SkipLines] at *
  omega

lemma showEnd_le (len i : Nat) : showEnd len i ≤ len := by
  simp only [showEnd]; omega

lemma skipStop_le (len e : Nat) : skipStop len e ≤ len := by
  simp only [skipStop]; omega

lemma hunkLoop_count_content (lines : List String) :
    ∀ r i n, lines.length - i = r →
      (hunkLoop lines i n).countP isContentLine = showTotal r := by
  intro r
  induction r using Nat.strong_induction_on with
  | _ r ih =>
    intro i n hr
    rw [hunkLoop_eq]
    split
    · split
      · rename_i h h2
        rw [List.countP_append, List.countP_append]
        rw [List.countP_map]
        have hg : 0 < skipStop lines.length (showEnd lines.length i) - showEnd lines.length i := by
          simp only [showEnd, skipStop, ShowLines, SkipLines] at *; omega
        rw [if_pos hg]
        have hrec := ih (lines.length - skipStop lines.length (showEnd lines.length i))
          (by simp only [showEnd, skipStop, ShowLines, SkipLines] at *; omega)
          (skipStop lines.length (showEnd lines.length i))
          (n + (showEnd lines.length i - i) +
            (skipStop lines.length (showEnd lines.length i) - showEnd lines.length i)) rfl
        rw [hrec]
        have hst : showTotal r =
            ShowLines + showTotal (r - (ShowLines + SkipLines)) := by
          rw [showTotal]
          rw [if_neg (by simp only [showEnd, skipStop, ShowLines, SkipLines] at *; omega)]
        rw [hst]
        have harg : lines.length - skipStop lines.length (showEnd lines.length i)
            = r - (ShowLines + SkipLines) := by
          simp only [showEnd, skipStop, ShowLines, SkipLines] at *; omega
        rw [harg]
        have hcomp : (isContentLine ∘ Item.content) = fun _ : String => true := by
          funext s; simp [isContentLine, Function.comp]
        rw [hcomp]
        simp only [List.countP_true, List.length_take, List.length_drop]
        have hone : List.countP isContentLine
            [Item.marker (n + (showEnd lines.length i - i) + 1)
              (n + (showEnd lines.length i - i) +
                (skipStop lines.length (showEnd lines.length i) - showEnd lines.length i))
              (skipStop lines.length (showEnd lines.length i) - showEnd lines.length i)] = 0 := by
          simp [isContentLine]
        rw [hone]
        have he : showEnd lines.length i - i = ShowLines := by
          simp only [showEnd, ShowLines] at *; omega
        have he2 : min (showEnd lines.length i - i) (lines.length - i)
            = ShowLines := by
          simp only [showEnd, ShowLines] at *; omega
        rw [he2]
        omega
      · rename_i h h2
        rw [List.countP_map]
        have hst : showTotal r = r := by
          rw [showTotal]
          rw [if_pos (by simp only [showEnd, ShowLines] at *; omega)]
        rw [hst]
        have hcomp : (isContentLine ∘ Item.content) = fun _ : String => true := by
          funext s; simp [isContentLine, Function.comp]
        rw [hcomp]
        simp only [List.countP_true, List.length_take, List.length_drop]
        simp only [showEnd, ShowLines] at *
        omega
    · rename_i h
      have hr0 : r = 0 := by omega
      rw [hr0, showTotal]
      simp [ShowLines]

lemma hunkLoop_count_marker (lines : List String) :
    ∀ r i n, lines.length - i = r →
      (hunkLoop lines i n).countP isMarker = markerTotal r := by
  intro r
  induction r using Nat.strong_induction_on with
  | _ r ih =>
    intro i n hr
    rw [hunkLoop_eq]
    split
    · split
      · rename_i h h2
        rw [List.countP_append, List.countP_append]
        rw [List.countP_map]
        have hg : 0 < skipStop lines.length (showEnd lines.length i) - showEnd lines.length i := by
          simp only [showEnd, skipStop, ShowLines, SkipLines] at *; omega
        rw [if_pos hg]
        have hrec := ih (lines.length - skipStop lines.length (showEnd lines.length i))
          (by simp only [showEnd, skipStop, ShowLines, SkipLines] at *; omega)
          (skipStop lines.length (showEnd lines.length i))
          (n + (showEnd lines.length i - i) +
            (skipStop lines.length (showEnd lines.length i) - showEnd lines.length i)) rfl
        rw [hrec]
        have hmt : markerTotal r =
            1 + markerTotal (r - (ShowLines + SkipLines)) := by
          rw [markerTotal]
          rw [if_neg (by simp only [showEnd, skipStop, ShowLines, SkipLines] at *; omega)]
        rw [hmt]
        have harg : lines.length - skipStop lines.length (showEnd lines.length i)
            = r - (ShowLines + SkipLines) := by
          simp only [showEnd, skipStop, ShowLines, SkipLines] at *; omega
        rw [harg]
        have hcomp : (isMarker ∘ Item.content) = fun _ : String => false := by
          funext s; simp [isMarker, Function.comp]
        rw [hcomp]
        simp only [List.countP_false, Function.const_apply]
        have hone : List.countP isMarker
            [Item.marker (n + (showEnd lines.length i - i) + 1)
              (n + (showEnd lines.length i - i) +
                (skipStop lines.length (showEnd lines.length i) - showEnd lines.length i))
              (skipStop lines.length (showEnd lines.length i) - showEnd lines.length i)] = 1 := by
          simp [isMarker]
        rw [hone]
      · rename_i h h2
        rw [List.countP_map]
        have hmt : markerTotal r = 0 := by
          rw [markerTotal]
          rw [if_pos (by simp only [showEnd, ShowLines] at *; omega)]
        rw [hmt]
        have hcomp : (isMarker ∘ Item.content) = fun _ : String => false := by
          funext s; simp [isMarker, Function.comp]
        rw [hcomp]
        simp only [List.countP_false, Function.const_apply]
    · rename_i h
      have hr0 : r = 0 := by omega
      rw [hr0, markerTotal]
      simp [ShowLines]

lemma showTotal_closed (r : Nat) :
    showTotal r = ShowLines * (r / (ShowLines + SkipLines)) +
      min (r % (ShowLines + SkipLines)) ShowLines := by
  induction r using Nat.strong_induction_on with
  | _ r ih =>
    rw [showTotal]
    split
    · rename_i hle
      simp only [ShowLines, SkipLines] at *
      omega
    · rename_i hgt
      rw [ih (r - (ShowLines + SkipLines)) (by simp only [ShowLines, SkipLines] at *; omega)]
      simp only [ShowLines, SkipLines] at *
      omega

lemma markerTotal_closed (r : Nat) :
    markerTotal r = (r - ShowLines + (ShowLines + SkipLines - 1)) / (ShowLines + SkipLines) := by
  induction r using Nat.strong_induction_on with
  | _ r ih =>
    rw [markerTotal]
    split
    · rename_i hle
      simp only [ShowLines, SkipLines] at *
      omega
    · rename_i hgt
      rw [ih (r - (ShowLines + SkipLines)) (by simp only [ShowLines, SkipLines] at *; omega)]
      simp only [ShowLines, SkipLines] at *
      omega

lemma drop_take_drop (l : List String) (a b : Nat) (h : a ≤ b) :
    (l.drop a).take (b - a) ++ l.drop b = l.drop a := by
  have hb : l.drop b = (l.drop a).drop (b - a) := by
    rw [List.drop_drop]; congr 1; omega
  rw [hb, List.take_append_drop]

lemma expandItems_append (lines : List String) (a b : List Item) :
    expandItems lines (a ++ b) = expandItems lines a ++ expandItems lines b := by
  simp [expandItems]

lemma expandItems_map_content (lines : List String) (xs : List String) :
    expandItems lines (xs.map Item.content) = xs := by
  simp [expandItems, List.flatMap_map]

lemma expandItems_marker (lines : List String) (a b k : Nat) :
    expandItems lines [Item.marker a b k] = (lines.drop (a - 1)).take k := by
  simp [expandItems]

lemma expandItems_nil (lines : List String) : expandItems lines [] = [] := by
  simp [expandItems]

lemma expand_hunkLoop (lines : List String) :
    ∀ r i, lines.length - i = r →
      expandItems lines (hunkLoop lines i i) = lines.drop i := by
  intro r
  induction r using Nat.strong_induction_on with
  | _ r ih =>
    intro i hr
    rw [hunkLoop_eq]
    split
    · split
      · rename_i h h2
        have hg : 0 < skipStop lines.length (showEnd lines.length i) - showEnd lines.length i := by
          simp only [showEnd, skipStop, ShowLines, SkipLines] at *; omega
        rw [if_pos hg]
        have hn : i + (showEnd lines.length i - i) +
            (skipStop lines.length (showEnd lines.length i) - showEnd lines.length i)
            = skipStop lines.length (showEnd lines.length i) := by
          simp only [showEnd, skipStop, ShowLines, SkipLines] at *; omega
        rw [hn]
        rw [expandItems_append, expandItems_append, expandItems_map_content,
          expandItems_marker,
          ih (lines.length - skipStop lines.length (showEnd lines.length i))
            (by simp only [showEnd, skipStop, ShowLines, SkipLines] at *; omega)
            (skipStop lines.length (showEnd lines.length i)) rfl]
        have hm1 : i + (showEnd lines.length i - i) + 1 - 1 = showEnd lines.length i := by
          simp only [showEnd, ShowLines] at *; omega
        rw [hm1]
        have hid : (lines.drop i).take (showEnd lines.length i - i) ++
            ((lines.drop (showEnd lines.length i)).take
              (skipStop lines.length (showEnd lines.length i) - showEnd lines.length i) ++
              lines.drop (skipStop lines.length (showEnd lines.length i)))
            = lines.drop i := by
          rw [drop_take_drop lines (showEnd lines.length i)
            (skipStop lines.length (showEnd lines.length i))
            (by simp only [showEnd, skipStop, ShowLines, SkipLines] at *; omega)]
          exact drop_take_drop lines i (showEnd lines.length i)
            (by simp only [showEnd, ShowLines] at *; omega)
        rw [List.append_assoc]
        exact hid
      · rename_i h h2
        have he : showEnd lines.length i = lines.length := by
          simp only [showEnd, ShowLines] at *; omega
        rw [expandItems_map_content]
        apply List.take_of_length_le
        simp only [List.length_drop, he]
        omega
    · rename_i h
      have hi : lines.length ≤ i := by omega
      rw [List.drop_eq_nil_of_le hi]
      exact expandItems_nil lines

lemma hunkLoop_marker_mem (lines : List String) :
    ∀ r i n a b k, lines.length - i = r →
      Item.marker a b k ∈ hunkLoop lines i n →
      a + k = b + 1 ∧ 0 < k ∧ k ≤ SkipLines := by
  intro r
  induction r using Nat.strong_induction_on with
  | _ r ih =>
    intro i n a b k hr hmem
    rw [hunkLoop_eq] at hmem
    split at hmem
    · split at hmem
      · rename_i h h2
        have hg : 0 < skipStop lines.length (showEnd lines.length i) - showEnd lines.length i := by
          simp only [showEnd, skipStop, ShowLines, SkipLines] at *; omega
        rw [if_pos hg] at hmem
        simp only [List.mem_append, List.mem_map, List.mem_singleton] at hmem
        rcases hmem with ((⟨s, _, habs⟩ | heq) | hrec)
        · exact absurd habs (by simp)
        · injection heq with h1a h1b h1c
          simp only [skipStop, showEnd, SkipLines, ShowLines] at *
          omega
        · exact ih (lines.length - skipStop lines.length (showEnd lines.length i))
            (by simp only [showEnd, skipStop, ShowLines, SkipLines] at *; omega)
            (skipStop lines.length (showEnd lines.length i))
            (n + (showEnd lines.length i - i) +
              (skipStop lines.length (showEnd lines.length i) - showEnd lines.length i))
            a b k rfl hrec
      · rename_i h h2
        simp only [List.mem_map] at hmem
        rcases hmem with ⟨s, _, habs⟩
        exact absurd habs (by simp)
    · simp at hmem

lemma countP_marker_map_content (xs : List String) :
    (xs.map Item.content).countP isMarker = 0 := by
  rw [List.countP_map]
  have hcomp : (isMarker ∘ Item.content) = fun _ : String => false := by
    funext s; simp [isMarker, Function.comp]
  rw [hcomp]
  simp only [List.countP_false, Function.const_apply]

/-- Claim C1 (amended): truncateHunk is a no-op exactly when the whole
line array, the @@ header included, has at most ShowLines entries, i.e.
when the content-line count is at most ShowLines - 1.  In that case the
output is the header followed by all content lines unchanged and no
truncation marker is emitted.  (The original claim, with content-line
count up to ShowLines, fails: the header occupies one slot of the
budget; see the counterexample.) -/
theorem truncateHunk_small_noop (lines : List String)
    (h : lines.length ≤ ShowLines) :
    truncateHunk lines = String.intercalate "\n" lines ++ "\n" ∧
    (truncateHunkItems lines).countP isMarker = 0 := by
  constructor
  · rw [truncateHunk, if_pos h]
  · rw [truncateHunkItems, if_pos h]
    exact countP_marker_map_content lines

/-- Witness for C1 at a concrete 2-line hunk (header plus one content
line). -/
theorem truncateHunk_small_noop_witness :
    (["@@ -1 +1 @@", "+a"] : List String).length ≤ ShowLines ∧
    (truncateHunk ["@@ -1 +1 @@", "+a"]
        = String.intercalate "\n" ["@@ -1 +1 @@", "+a"] ++ "\n" ∧
      (truncateHunkItems ["@@ -1 +1 @@", "+a"]).countP isMarker = 0) :=
  ⟨by decide, truncateHunk_small_noop ["@@ -1 +1 @@", "+a"] (by decide)⟩

/-- Counterexample to claim C1 as stated: a hunk with exactly ShowLines
content lines (so 101 lines including the @@ header) is truncated — the
output differs from the joined input and one marker is emitted. -/
theorem truncateHunk_noop_fails_at_ShowLines :
    truncateHunk (List.replicate 101 "x")
        ≠ String.intercalate "\n" (List.replicate 101 "x") ++ "\n" ∧
    (truncateHunkItems (List.replicate 101 "x")).countP isMarker = 1 := by
  constructor
  · decide
  · decide

/-- Claim C2 (amended): for a hunk whose line array (header included)
has L > ShowLines entries, the loop emits exactly
ShowLines * (L / (ShowLines+SkipLines)) + min (L % (ShowLines+SkipLines)) ShowLines
input lines (of which one is the @@ header, so one fewer content line),
plus one truncation marker per skip performed, namely
(L - ShowLines + (ShowLines+SkipLines-1)) / (ShowLines+SkipLines) markers;
the rendered string is exactly these items each followed by a newline.
(The original claim, ceil(N/(ShowLines+SkipLines))*ShowLines content
lines capped at N for N content lines, fails; see the counterexample.) -/
theorem truncateHunk_count_formula (lines : List String)
    (h : ShowLines < lines.length) :
    (hunkLoop lines 0 0).countP isContentLine
        = ShowLines * (lines.length / (ShowLines + SkipLines)) +
          min (lines.length % (ShowLines + SkipLines)) ShowLines ∧
    (hunkLoop lines 0 0).countP isMarker
        = (lines.length - ShowLines + (ShowLines + SkipLines - 1)) /
          (ShowLines + SkipLines) ∧
    truncateHunk lines = renderItems (hunkLoop lines 0 0) := by
  refine ⟨?_, ?_, ?_⟩
  · rw [hunkLoop_count_content lines lines.length 0 0 rfl, showTotal_closed]
  · rw [hunkLoop_count_marker lines lines.length 0 0 rfl, markerTotal_closed]
  · rw [truncateHunk, if_neg (by omega)]

/-- Witness for C2 at a concrete 151-line array (150 content lines plus
header): 101 lines shown, 1 marker. -/
theorem truncateHunk_count_formula_witness :
    ShowLines < (List.replicate 151 "x").length ∧
    ((hunkLoop (List.replicate 151 "x") 0 0).countP isContentLine
        = ShowLines * ((List.replicate 151 "x").length / (ShowLines + SkipLines)) +
          min ((List.replicate 151 "x").length % (ShowLines + SkipLines)) ShowLines ∧
    (hunkLoop (List.replicate 151 "x") 0 0).countP isMarker
        = ((List.replicate 151 "x").length - ShowLines + (ShowLines + SkipLines - 1)) /
          (ShowLines + SkipLines) ∧
    truncateHunk (List.replicate 151 "x")
        = renderItems (hunkLoop (List.replicate 151 "x") 0 0)) :=
  ⟨by decide, truncateHunk_count_formula (List.replicate 151 "x") (by decide)⟩

/-- Counterexample to claim C2 as stated: a hunk of N = 101 content
lines (102 lines with the header).  The claim predicts
ceil(101/150)*100 = 100 emitted content lines (capped at 101), but the
code emits only 99 content lines after the header: the first shown
segment holds the header plus 99 content lines. -/
theorem truncateHunk_count_fails :
    (hunkLoop (List.replicate 102 "x") 0 0).countP isContentLine = 100 ∧
    ((hunkLoop (List.replicate 102 "x") 0 0).countP isContentLine - 1 : Nat) ≠ 100 := by
  constructor
  · decide
  · decide

/-- Claim C3 (amended): for a hunk array of exactly
ShowLines + SkipLines + 2 lines (header plus ShowLines + SkipLines + 1
content lines) the output is the first ShowLines lines (header plus
ShowLines - 1 content lines), then exactly one truncation marker whose
elided count equals SkipLines, then exactly two remaining content
lines.  (The original claim said exactly one remaining content line;
the header occupying a slot of the first segment leaves two.) -/
theorem truncateHunk_boundary (lines : List String)
    (h : lines.length = ShowLines + SkipLines + 2) :
    hunkLoop lines 0 0
        = (lines.take ShowLines).map Item.content ++
          Item.marker (ShowLines + 1) (ShowLines + SkipLines) SkipLines ::
            ((lines.drop (ShowLines + SkipLines)).map Item.content) ∧
    (hunkLoop lines 0 0).countP isMarker = 1 ∧
    ((lines.drop (ShowLines + SkipLines)).map Item.content).length = 2 ∧
    truncateHunk lines = renderItems (hunkLoop lines 0 0) := by
  simp only [ShowLines, SkipLines] at h
  refine ⟨?_, ?_, ?_, ?_⟩
  · rw [hunkLoop_eq]
    rw [if_pos (show 0 < lines.length by omega)]
    have e1 : showEnd lines.length 0 = 100 := by
      simp only [showEnd, ShowLines]; omega
    rw [e1]
    rw [if_pos (show (100 : Nat) < lines.length by omega)]
    have e2 : skipStop lines.length 100 = 150 := by
      simp only [skipStop, SkipLines]; omega
    rw [e2]
    rw [hunkLoop_eq]
    rw [if_pos (show (150 : Nat) < lines.length by omega)]
    have e3 : showEnd lines.length 150 = lines.length := by
      simp only [showEnd, ShowLines]; omega
    rw [e3]
    rw [if_neg (lt_irrefl lines.length)]
    have e4 : (lines.drop 150).take (lines.length - 150) = lines.drop 150 := by
      apply List.take_of_length_le
      simp
    norm_num [e4, ShowLines, SkipLines]
  · rw [hunkLoop_count_marker lines lines.length 0 0 rfl, markerTotal_closed]
    simp only [ShowLines, SkipLines]
    omega
  · simp only [List.length_map, List.length_drop, ShowLines, SkipLines]
    omega
  · rw [truncateHunk, if_neg (by simp only [ShowLines]; omega)]

/-- Witness for C3 at a concrete 152-line array. -/
theorem truncateHunk_boundary_witness :
    (List.replicate 152 "x").length = ShowLines + SkipLines + 2 ∧
    (hunkLoop (List.replicate 152 "x") 0 0
        = ((List.replicate 152 "x").take ShowLines).map Item.content ++
          Item.marker (ShowLines + 1) (ShowLines + SkipLines) SkipLines ::
            (((List.replicate 152 "x").drop (ShowLines + SkipLines)).map Item.content) ∧
    (hunkLoop (List.replicate 152 "x") 0 0).countP isMarker = 1 ∧
    (((List.replicate 152 "x").drop (ShowLines + SkipLines)).map Item.content).length = 2 ∧
    truncateHunk (List.replicate 152 "x")
        = renderItems (hunkLoop (List.replicate 152 "x") 0 0)) :=
  ⟨by decide, truncateHunk_boundary (List.replicate 152 "x") (by decide)⟩

/-- Counterexample to claim C3 as stated: at a hunk of exactly
ShowLines + SkipLines + 1 = 151 content lines (152 lines with header)
the single marker is followed by two remaining content lines, not one.
The full output structure is exhibited. -/
theorem truncateHunk_boundary_fails :
    truncateHunkItems (List.replicate 152 "x")
        = List.replicate 100 (Item.content "x") ++
          Item.marker 101 150 50 :: List.replicate 2 (Item.content "x") ∧
    ((truncateHunkItems (List.replicate 152 "x")).drop
        (ShowLines + 1)).countP isContentLine ≠ 1 := by
  constructor
  · decide
  · decide

/-- Claim C10 (confirmed): every truncation marker is internally
consistent.  Expanding each emitted item back to the input lines it
stands for — a shown line to itself, a marker with stated 1-based range
a..b and count k to the k input lines starting at position a — recovers
the hunk exactly, so shown segments and elided ranges tile the hunk
consecutively without overlap and each stated count matches the lines
actually elided; moreover every marker satisfies a + k = b + 1 (count
equals range size) with 0 < k ≤ SkipLines. -/
theorem truncateHunk_marker_consistency (lines : List String) :
    expandItems lines (truncateHunkItems lines) = lines ∧
    ∀ a b k, Item.marker a b k ∈ truncateHunkItems lines →
      a + k = b + 1 ∧ 0 < k ∧ k ≤ SkipLines := by
  constructor
  · rw [truncateHunkItems]
    split
    · exact expandItems_map_content lines lines
    · exact expand_hunkLoop lines lines.length 0 rfl
  · intro a b k hmem
    rw [truncateHunkItems] at hmem
    split at hmem
    · simp only [List.mem_map] at hmem
      rcases hmem with ⟨s, _, habs⟩
      exact absurd habs (by simp)
    · exact hunkLoop_marker_mem lines lines.length 0 0 a b k rfl hmem

/-- Witness for C10: the marker emitted for the concrete 152-line hunk
satisfies the consistency properties. -/
theorem truncateHunk_marker_consistency_witness :
    Item.marker 101 150 50 ∈ truncateHunkItems (List.replicate 152 "x") ∧
    (101 + 50 = 150 + 1 ∧ 0 < 50 ∧ 50 ≤ SkipLines) :=
  ⟨by decide,
    (truncateHunk_marker_consistency (List.replicate 152 "x")).2 101 150 50 (by decide)⟩

/-- Go strings.HasPrefix, embedded structurally on the character
lists so that it is kernel-computable (String.startsWith is defined by
well-founded byte-position recursion and does not reduce). -/
def hasPrefix (s pre : String) : Bool := pre.data.isPrefixOf s.data

/-- Loop of splitByFiles (prompt.go lines 115-134).  The Go function
receives the diff string and iterates over strings.Split(diff, "\n");
here the input is that line list.  `current` is the accumulated section
as its list of lines (Go holds the same lines, each with a trailing
newline, in a strings.Builder, so Go's current.Len() > 0 is exactly
`current` nonempty). -/
def splitByFilesLoop : List String → List String → List (List String)
  | [], current => if current.isEmpty then [] else [current]
  | l :: rest, current =>
    if hasPrefix l "diff --git" && !current.isEmpty then
      current :: splitByFilesLoop rest [l]
    else
      splitByFilesLoop rest (current ++ [l])

/-- splitByFiles: split a diff (given as its lines) into per-file
sections, each given as its lines. -/
def splitByFiles (diffLines : List String) : List (List String) :=
  splitByFilesLoop diffLines []

/-- Loop of truncateFile (prompt.go lines 137-166), iterating over the
lines of one file section: header lines are copied through with a
newline, hunk lines are gathered into `hunkLines` and flushed through
truncateHunk at the next @@ header and at the end. -/
def truncateFileLoop : List String → String → List String → Bool → String
  | [], res, hunkLines, _ =>
      if hunkLines.isEmpty then res else res ++ truncateHunk hunkLines
  | l :: rest, res, hunkLines, inHunk =>
      if hasPrefix l "@@" then
        if hunkLines.isEmpty then
          truncateFileLoop rest res [l] true
        else
          truncateFileLoop rest (res ++ truncateHunk hunkLines) [l] true
      else if inHunk then
        truncateFileLoop rest res (hunkLines ++ [l]) inHunk
      else
        truncateFileLoop rest (res ++ l ++ "\n") hunkLines inHunk

/-- truncateFile on the lines of one file section (the Go function
receives the section string and splits it on newlines first). -/
def truncateFile (lines : List String) : String :=
  truncateFileLoop lines "" [] false

/-- The fixed sentinel appended by truncateDiff once the character
budget is breached. -/
def truncationSentinel : String := "\n... (remaining files truncated) ..."

/-- The contribution of one file section to the truncateDiff output.
splitByFiles hands truncateFile the section string, which ends in a
newline, so strings.Split of it is the section's lines plus one
trailing empty line. -/
def sectionOut (sec : List String) : String := truncateFile (sec ++ [""])

/-- Loop of truncateDiff (prompt.go lines 95-112): append each
truncated file section; after appending, if the accumulated length
exceeds MaxDiffSize, append the sentinel and stop. -/
def truncateDiffLoop : List (List String) → String → String
  | [], result => result
  | file :: rest, result =>
      if MaxDiffSize < (result ++ sectionOut file).length then
        result ++ sectionOut file ++ truncationSentinel
      else
        truncateDiffLoop rest (result ++ sectionOut file)

/-- truncateDiff on a diff given as its lines. -/
def truncateDiff (diffLines : List String) : String :=
  truncateDiffLoop (splitByFiles diffLines) ""

/-- Concatenation of the truncated outputs of a list of sections: the
output truncateDiff would produce with an unlimited budget. -/
def joinOuts : List (List String) → String
  | [] => ""
  | s :: r => sectionOut s ++ joinOuts r

lemma truncateDiffLoop_spec : ∀ (secs : List (List String)) (acc : String),
    acc.length ≤ MaxDiffSize →
    MaxDiffSize < (acc ++ joinOuts secs).length →
    ∃ k, k < secs.length ∧
      truncateDiffLoop secs acc
        = acc ++ (joinOuts (secs.take (k+1)) ++ truncationSentinel) ∧
      MaxDiffSize < (acc ++ joinOuts (secs.take (k+1))).length ∧
      (acc ++ joinOuts (secs.take k)).length ≤ MaxDiffSize := by
  intro secs
  induction secs with
  | nil =>
    intro acc h1 h2
    exfalso
    rw [joinOuts, String.append_empty] at h2
    omega
  | cons s rest ih =>
    intro acc h1 h2
    rw [truncateDiffLoop]
    by_cases hb : MaxDiffSize < (acc ++ sectionOut s).length
    · rw [if_pos hb]
      refine ⟨0, by simp, ?_, ?_, ?_⟩
      · simp only [List.take_succ_cons, List.take_zero, joinOuts, String.append_empty]
        rw [String.append_assoc]
      · simp only [List.take_succ_cons, List.take_zero, joinOuts, String.append_empty]
        exact hb
      · simpa only [List.take_zero, joinOuts, String.append_empty] using h1
    · rw [if_neg hb]
      have h2' : MaxDiffSize < ((acc ++ sectionOut s) ++ joinOuts rest).length := by
        rw [joinOuts] at h2
        rw [String.append_assoc]
        exact h2
      obtain ⟨k, hk, e1, e2, e3⟩ := ih (acc ++ sectionOut s) (by omega) h2'
      refine ⟨k + 1, by simpa using hk, ?_, ?_, ?_⟩
      · rw [e1]
        simp only [List.take_succ_cons, joinOuts]
        rw [String.append_assoc, String.append_assoc]
      · simp only [List.take_succ_cons, joinOuts]
        rw [← String.append_assoc]
        exact e2
      · simp only [List.take_succ_cons, joinOuts]
        rw [← String.append_assoc]
        exact e3

/-- Claim C4 (amended): whenever the concatenation of the (already
hunk-truncated) file sections of a diff exceeds MaxDiffSize characters,
the output of truncateDiff is exactly the first k+1 sections in
original order, each included in full, followed by the fixed sentinel
appended exactly once, where section k+1 is the unique one whose
appending first breaches the budget; all sections after the breach are
dropped entirely.  The set of fully present sections is thus a prefix
of the input sections — a strict prefix whenever the breach does not
happen at the last section, but not in general: a diff whose last
section breaches the budget keeps every section (see the
counterexample, which refutes the claimed strictness). -/
theorem truncateDiff_budget (diffLines : List String)
    (h : MaxDiffSize < (joinOuts (splitByFiles diffLines)).length) :
    ∃ k, k < (splitByFiles diffLines).length ∧
      truncateDiff diffLines
        = joinOuts ((splitByFiles diffLines).take (k+1)) ++ truncationSentinel ∧
      MaxDiffSize < (joinOuts ((splitByFiles diffLines).take (k+1))).length ∧
      (joinOuts ((splitByFiles diffLines).take k)).length ≤ MaxDiffSize := by
  have hspec := truncateDiffLoop_spec (splitByFiles diffLines) ""
    (by rw [String.length]; simp [MaxDiffSize])
    (by rw [String.empty_append]; exact h)
  obtain ⟨k, hk, e1, e2, e3⟩ := hspec
  refine ⟨k, hk, ?_, ?_, ?_⟩
  · rw [truncateDiff, e1, String.empty_append]
  · rw [String.empty_append] at e2; exact e2
  · rw [String.empty_append] at e3; exact e3

/-- A 100-character diff line (no @@ or diff --git prefix). -/
def diffLine : String := "aaaaaaaaaaaaaaaaaaaaaaaaaaaaaaaaaaaaaaaaaaaaaaaaaaaaaaaaaaaaaaaaaaaaaaaaaaaaaaaaaaaaaaaaaaaaaaaaaaaa"

/-- A diff that is one file section of 121 such lines: its single
section renders to 121*101 + 1 = 12222 characters, exceeding the
12000-character budget on its own. -/
def bigDiff : List String := List.replicate 121 diffLine

/-- Lines of a section with no hunk headers, each rendered with a
trailing newline, as the header path of truncateFile emits them. -/
def renderLines : List String → String
  | [] => ""
  | l :: ls => l ++ "\n" ++ renderLines ls

lemma diffLine_no_hunk : hasPrefix diffLine "@@" = false := by decide

lemma empty_no_hunk : hasPrefix "" "@@" = false := by decide

lemma diffLine_no_git : hasPrefix diffLine "diff --git" = false := by decide

lemma diffLine_length : diffLine.length = 100 := by decide

lemma splitByFilesLoop_no_git : ∀ (ls : List String) (cur : List String),
    cur.isEmpty = false → (∀ l ∈ ls, hasPrefix l "diff --git" = false) →
    splitByFilesLoop ls cur = [cur ++ ls] := by
  intro ls
  induction ls with
  | nil =>
    intro cur hcur _
    rw [splitByFilesLoop, if_neg (by simp [hcur]), List.append_nil]
  | cons l rest ih =>
    intro cur hcur hmem
    rw [splitByFilesLoop]
    rw [if_neg (by rw [hmem l (by simp)]; simp)]
    rw [ih (cur ++ [l]) (by simp) (fun x hx => hmem x (by simp [hx]))]
    simp

lemma splitBig : splitByFiles bigDiff = [List.replicate 121 diffLine] := by
  rw [splitByFiles, bigDiff]
  rw [show (121 : Nat) = 120 + 1 by rfl, List.replicate_succ]
  rw [splitByFilesLoop]
  rw [if_neg (by simp)]
  rw [List.nil_append]
  rw [splitByFilesLoop_no_git (List.replicate 120 diffLine) [diffLine] (by simp)
    (fun x hx => by rw [List.eq_of_mem_replicate hx]; exact diffLine_no_git)]
  rw [List.singleton_append]

lemma truncateFileLoop_no_hunk : ∀ (ls : List String) (res : String),
    (∀ l ∈ ls, hasPrefix l "@@" = false) →
    truncateFileLoop ls res [] false = res ++ renderLines ls := by
  intro ls
  induction ls with
  | nil =>
    intro res _
    simp [truncateFileLoop, renderLines, String.append_empty]
  | cons l rest ih =>
    intro res hmem
    rw [truncateFileLoop]
    rw [hmem l (by simp)]
    rw [if_neg (by simp), if_neg (by simp)]
    rw [ih (res ++ l ++ "\n") (fun x hx => hmem x (by simp [hx]))]
    rw [renderLines]
    simp only [String.append_assoc]

lemma renderLines_append (a b : List String) :
    renderLines (a ++ b) = renderLines a ++ renderLines b := by
  induction a with
  | nil => rw [List.nil_append, renderLines, String.empty_append]
  | cons l rest ih =>
    rw [List.cons_append, renderLines, renderLines, ih]
    simp only [String.append_assoc]

lemma renderLines_replicate_length (m : Nat) :
    (renderLines (List.replicate m diffLine)).length = m * 101 := by
  induction m with
  | zero => rw [List.replicate_zero, renderLines]; rfl
  | succ k ih =>
    rw [List.replicate_succ, renderLines, String.length_append, String.length_append,
      ih, diffLine_length]
    have hn : ("\n" : String).length = 1 := rfl
    rw [hn]
    omega

lemma sectionOut_big : sectionOut (List.replicate 121 diffLine)
    = renderLines (List.replicate 121 diffLine ++ [""]) := by
  rw [sectionOut, truncateFile]
  rw [truncateFileLoop_no_hunk _ ""
    (fun x hx => by
      rcases List.mem_append.mp hx with h | h
      · rw [List.eq_of_mem_replicate h]; exact diffLine_no_hunk
      · rw [List.mem_singleton.mp h]; exact empty_no_hunk)]
  rw [String.empty_append]

lemma sectionOut_big_length : (sectionOut (List.replicate 121 diffLine)).length = 12222 := by
  rw [sectionOut_big, renderLines_append, String.length_append,
    renderLines_replicate_length]
  rfl

lemma joinOuts_big_length :
    (joinOuts (splitByFiles bigDiff)).length = 12222 := by
  rw [splitBig, joinOuts, joinOuts, String.append_empty, sectionOut_big_length]

lemma sentinel_length : truncationSentinel.length = 36 := by decide

/-- Witness for C4 at `bigDiff`. -/
theorem truncateDiff_budget_witness :
    MaxDiffSize < (joinOuts (splitByFiles bigDiff)).length ∧
    (∃ k, k < (splitByFiles bigDiff).length ∧
      truncateDiff bigDiff
        = joinOuts ((splitByFiles bigDiff).take (k+1)) ++ truncationSentinel ∧
      MaxDiffSize < (joinOuts ((splitByFiles bigDiff).take (k+1))).length ∧
      (joinOuts ((splitByFiles bigDiff).take k)).length ≤ MaxDiffSize) :=
  ⟨by rw [joinOuts_big_length]; decide,
    truncateDiff_budget bigDiff (by rw [joinOuts_big_length]; decide)⟩

/-- Counterexample to claim C4 as stated: for `bigDiff` the budget is
breached, yet every input section is fully present in the output — the
input has exactly one section and the output is that whole section plus
the sentinel; it is not the output the only strictly shorter prefix
(the empty one) would give.  So the set of fully present sections is
the whole input, not a strict prefix of it. -/
theorem truncateDiff_strict_prefix_fails :
    MaxDiffSize < (joinOuts (splitByFiles bigDiff)).length ∧
    truncateDiff bigDiff = joinOuts (splitByFiles bigDiff) ++ truncationSentinel ∧
    truncateDiff bigDiff ≠ joinOuts ((splitByFiles bigDiff).take 0) ++ truncationSentinel := by
  have hout : truncateDiff bigDiff
      = sectionOut (List.replicate 121 diffLine) ++ truncationSentinel := by
    rw [truncateDiff, splitBig, truncateDiffLoop]
    rw [if_pos (by
      rw [String.empty_append, sectionOut_big_length]
      decide)]
    rw [String.empty_append]
  refine ⟨by rw [joinOuts_big_length]; decide, ?_, ?_⟩
  · rw [hout, splitBig, joinOuts, joinOuts, String.append_empty]
  · rw [hout, splitBig]
    intro heq
    have hlen := congrArg String.length heq
    rw [String.length_append, sectionOut_big_length, sentinel_length] at hlen
    rw [List.take_zero, joinOuts, String.empty_append, sentinel_length] at hlen
    omega

/-- The part of the BuildPrompt output before the optional
conventional-types line: framing (generation or regeneration with
previous message and optional feedback), file list, and the fenced,
budget-truncated diff. -/
def promptBefore (files : List String) (diff previousMsg feedback : String) : String :=
  (if previousMsg = "" then
    "Generate a commit message for these changes:\n\n"
  else
    "The user wants you to regenerate the commit message.\n\n" ++
    ("Previous message:\n```\n" ++ previousMsg ++ "\n```\n\n") ++
    (if feedback = "" then "" else "User feedback: " ++ feedback ++ "\n\n") ++
    "Generate an improved commit message based on the feedback.\n\n") ++
  "Files changed:\n" ++
  String.join (files.map (fun f => "- " ++ f ++ "\n")) ++
  "\nDiff:\n```\n" ++
  truncateDiff (diff.splitOn "\n") ++
  "\n```\n"

/-- The part of the BuildPrompt output after the optional
conventional-types line: optional custom instructions and the closing
instruction. -/
def promptAfter (customInstructions : String) : String :=
  (if customInstructions = "" then ""
   else "\nAdditional instructions: " ++ customInstructions ++ "\n") ++
  "\nAnalyze the changes and decide: use `submit_commit` for related changes, or `split_commits` if changes should be separate commits."

/-- The allowed-commit-types sentence, with the types comma-joined in
the given order (Go strings.Join(types, ", ")). -/
def typesLine (types : List String) : String :=
  "\nUse conventional commit format with one of these types: " ++
    String.intercalate ", " types ++ "\n"

/-- BuildPrompt (prompt.go lines 53-88).  The diff string is split on
newlines before truncation, as Go does inside splitByFiles. -/
def BuildPrompt (files : List String) (diff : String) (conventional : Bool)
    (types : List String) (customInstructions previousMsg feedback : String) : String :=
  (if previousMsg = "" then
    "Generate a commit message for these changes:\n\n"
  else
    "The user wants you to regenerate the commit message.\n\n" ++
    ("Previous message:\n```\n" ++ previousMsg ++ "\n```\n\n") ++
    (if feedback = "" then "" else "User feedback: " ++ feedback ++ "\n\n") ++
    "Generate an improved commit message based on the feedback.\n\n") ++
  "Files changed:\n" ++
  String.join (files.map (fun f => "- " ++ f ++ "\n")) ++
  "\nDiff:\n```\n" ++
  truncateDiff (diff.splitOn "\n") ++
  "\n```\n" ++
  (if conventional then
    "\nUse conventional commit format with one of these types: " ++
      String.intercalate ", " types ++ "\n"
   else "") ++
  (if customInstructions = "" then ""
   else "\nAdditional instructions: " ++ customInstructions ++ "\n") ++
  "\nAnalyze the changes and decide: use `submit_commit` for related changes, or `split_commits` if changes should be separate commits."

/-- Claim C9 (confirmed): with conventional = false the built prompt is
exactly the concatenation of its other parts — the allowed-commit-types
sentence is omitted entirely and the output does not depend on the
types list at all; with conventional = true the prompt is the same
concatenation with the types sentence inserted, the types comma-joined
in the given order. -/
theorem buildPrompt_conventional (files : List String) (diff : String)
    (types types2 : List String) (ci pm fb : String) :
    BuildPrompt files diff false types ci pm fb
        = promptBefore files diff pm fb ++ promptAfter ci ∧
    BuildPrompt files diff false types ci pm fb
        = BuildPrompt files diff false types2 ci pm fb ∧
    BuildPrompt files diff true types ci pm fb
        = promptBefore files diff pm fb ++ (typesLine types ++ promptAfter ci) := by
  refine ⟨?_, ?_, ?_⟩
  · simp only [BuildPrompt, promptBefore, promptAfter, Bool.false_eq_true, if_false,
      String.append_empty, String.append_assoc]
  · simp only [BuildPrompt, Bool.false_eq_true, if_false]
  · simp only [BuildPrompt, promptBefore, promptAfter, typesLine, if_true,
      String.append_assoc]

/-- CommitMessage (openai.go lines 18-24): the structured output of the
AI tool call. -/
structure CommitMessage where
  type : String
  scope : String
  subject : String
  body : String
  files : List String
deriving DecidableEq

/-- CommitMessage.String (openai.go lines 26-40): the rendered commit
message text, transcribed from the sequential Go accumulation into
nested lets. -/
def CommitMessage.render (c : CommitMessage) : String :=
  let msg : String := ""
  let msg : String :=
    if c.type ≠ "" then
      let msg := c.type
      let msg := if c.scope ≠ "" then msg ++ ("(" ++ c.scope ++ ")") else msg
      msg ++ ": "
    else msg
  let msg := msg ++ c.subject
  if c.body ≠ "" then msg ++ ("\n\n" ++ c.body) else msg

/-- Claim C5 (confirmed): the rendering rule of CommitMessage.String —
type, then (scope) when scope is non-empty, then ": ", then subject
when type is non-empty; exactly subject when type is empty; two
newlines and the body appended whenever the body is non-empty — and the
four concrete instances from the specification. -/
theorem commitMessage_render_spec :
    (∀ c : CommitMessage, c.render =
      (if c.type = "" then ""
       else c.type ++ (if c.scope = "" then "" else "(" ++ c.scope ++ ")") ++ ": ") ++
      c.subject ++
      (if c.body = "" then "" else "\n\n" ++ c.body)) ∧
    CommitMessage.render ⟨"feat", "", "x", "", []⟩ = "feat: x" ∧
    CommitMessage.render ⟨"fix", "auth", "y", "", []⟩ = "fix(auth): y" ∧
    CommitMessage.render ⟨"", "", "z", "", []⟩ = "z" ∧
    CommitMessage.render ⟨"docs", "", "a", "b", []⟩ = "docs: a\n\nb" := by
  refine ⟨fun c => ?_, by decide, by decide, by decide, by decide⟩
  simp only [CommitMessage.render]
  by_cases ht : c.type = "" <;> by_cases hs : c.scope = "" <;> by_cases hb : c.body = "" <;>
    simp [ht, hs, hb, String.append_assoc, String.empty_append, String.append_empty]

/-- A JSON value, as decoded from a tool call's Arguments string.  The
embedding works on parsed values; a syntactically invalid Arguments
string is a decode error in Go and is outside the claims considered
here. -/
inductive Jval where
  | null
  | bool (b : Bool)
  | num (n : Int)
  | str (s : String)
  | arr (elems : List Jval)
  | obj (fields : List (String × Jval))

/-- First value bound to a key in a JSON object. -/
def jLookup : List (String × Jval) → String → Option Jval
  | [], _ => none
  | (k2, v) :: rest, k => if k2 = k then some v else jLookup rest k

/-- Go encoding/json decoding of one string field: a missing key or an
explicit null leaves the zero value ""; a string value is taken
verbatim; any other type is an unmarshal error. -/
def decodeStringField : Option Jval → Except String String
  | none => .ok ""
  | some .null => .ok ""
  | some (.str s) => .ok s
  | some _ => .error "cannot unmarshal into string field"

/-- Go encoding/json decoding of a JSON array into []string. -/
def decodeStringList : List Jval → Except String (List String)
  | [] => .ok []
  | .str s :: rest => (decodeStringList rest).map (fun l => s :: l)
  | _ :: _ => .error "cannot unmarshal into string element"

/-- Go encoding/json decoding of the files field ([]string): missing or
null leaves the zero value nil (empty list); an array of strings is
taken; any other type is an unmarshal error. -/
def decodeFilesField : Option Jval → Except String (List String)
  | none => .ok []
  | some .null => .ok []
  | some (.arr es) => decodeStringList es
  | some _ => .error "cannot unmarshal into []string field"

/-- json.Unmarshal into CommitMessage: accepts null (zero value) or an
object; unknown keys are ignored; each known key must have the field's
type; missing keys keep zero values.  In particular no required-field
validation happens: the required lists in the tool schemas are part of
the request sent to the model, not checked locally. -/
def unmarshalCommitMessage : Jval → Except String CommitMessage
  | .null => .ok ⟨"", "", "", "", []⟩
  | .obj fields => do
      let t ← decodeStringField (jLookup fields "type")
      let sc ← decodeStringField (jLookup fields "scope")
      let su ← decodeStringField (jLookup fields "subject")
      let b ← decodeStringField (jLookup fields "body")
      let fs ← decodeFilesField (jLookup fields "files")
      .ok ⟨t, sc, su, b, fs⟩
  | _ => .error "cannot unmarshal into CommitMessage"

/-- Decoding of a JSON array into []CommitMessage. -/
def decodeCommitList : List Jval → Except String (List CommitMessage)
  | [] => .ok []
  | j :: rest => do
      let c ← unmarshalCommitMessage j
      let cs ← decodeCommitList rest
      .ok (c :: cs)

/-- SplitCommits (openai.go lines 43-45). -/
structure SplitCommits where
  commits : List CommitMessage
deriving DecidableEq

/-- json.Unmarshal into SplitCommits. -/
def unmarshalSplitCommits : Jval → Except String SplitCommits
  | .null => .ok ⟨[]⟩
  | .obj fields =>
      match jLookup fields "commits" with
      | none => .ok ⟨[]⟩
      | some .null => .ok ⟨[]⟩
      | some (.arr es) => (decodeCommitList es).map (fun cs => ⟨cs⟩)
      | some _ => .error "cannot unmarshal into commits field"
  | _ => .error "cannot unmarshal into SplitCommits"

/-- One tool call of the model response: function name and decoded
arguments. -/
structure ToolCall where
  name : String
  args : Jval

/-- The message of the first choice of the model response: its tool
calls and its free-form content. -/
structure ChatMessage where
  toolCalls : List ToolCall
  content : String

/-- GenerateResult (openai.go lines 141-144). -/
structure GenerateResult where
  commits : List CommitMessage
  isSplit : Bool
deriving DecidableEq

/-- The response-handling part of Client.GenerateCommitMessage
(openai.go lines 172-214): dispatch on the first tool call — decoding
errors are fatal; a submit_commit result gets the caller's file set and
isSplit = false; a split_commits result is wrapped as is with
isSplit = true; any other (or no) tool call falls back to the free-form
content as the subject of a single untyped commit, and an empty content
is a fatal error.  The single request/response cycle performs no
internal retry: the outcome is this one Except value. -/
def parseResponse (files : List String) (msg : ChatMessage) :
    Except String GenerateResult :=
  match msg.toolCalls with
  | toolCall :: _ =>
    if toolCall.name = "submit_commit" then
      match unmarshalCommitMessage toolCall.args with
      | .error e => .error ("failed to parse commit message: " ++ e)
      | .ok commit =>
          .ok ⟨[⟨commit.type, commit.scope, commit.subject, commit.body, files⟩], false⟩
    else if toolCall.name = "split_commits" then
      match unmarshalSplitCommits toolCall.args with
      | .error e => .error ("failed to parse split commits: " ++ e)
      | .ok split => .ok ⟨split.commits, true⟩
    else
      if msg.content = "" then .error "AI did not return a commit message"
      else .ok ⟨[⟨"", "", msg.content, "", files⟩], false⟩
  | [] =>
      if msg.content = "" then .error "AI did not return a commit message"
      else .ok ⟨[⟨"", "", msg.content, "", files⟩], false⟩

/-- Claim C7 (confirmed): every successfully parsed submit_commit
response yields isSplit = false and exactly one commit, whose files
list is exactly the caller's originally selected file set — the
structured single-commit response carries no per-file attribution of
its own. -/
theorem parseResponse_submit (files : List String) (tc : ToolCall)
    (rest : List ToolCall) (content : String) (r : GenerateResult)
    (hname : tc.name = "submit_commit")
    (hok : parseResponse files ⟨tc :: rest, content⟩ = .ok r) :
    r.isSplit = false ∧ ∃ c, r.commits = [c] ∧ c.files = files := by
  rw [parseResponse] at hok
  simp only [hname, if_pos rfl] at hok
  cases hu : unmarshalCommitMessage tc.args with
  | error e => rw [hu] at hok; exact absurd hok (by simp)
  | ok commit =>
    rw [hu] at hok
    have hr := (Except.ok.injEq _ _).mp hok
    refine ⟨by rw [← hr], ⟨commit.type, commit.scope, commit.subject, commit.body, files⟩,
      by rw [← hr], rfl⟩

/-- Witness for C7 at a concrete submit_commit payload. -/
theorem parseResponse_submit_witness :
    (ToolCall.mk "submit_commit" (.obj [("type", .str "feat"), ("subject", .str "s")])).name
        = "submit_commit" ∧
    parseResponse ["a.go", "b.go"]
        ⟨[⟨"submit_commit", .obj [("type", .str "feat"), ("subject", .str "s")]⟩], ""⟩
        = .ok ⟨[⟨"feat", "", "s", "", ["a.go", "b.go"]⟩], false⟩ ∧
    ((⟨[⟨"feat", "", "s", "", ["a.go", "b.go"]⟩], false⟩ : GenerateResult).isSplit = false ∧
      ∃ c, (⟨[⟨"feat", "", "s", "", ["a.go", "b.go"]⟩], false⟩ : GenerateResult).commits = [c] ∧
        c.files = ["a.go", "b.go"]) :=
  ⟨rfl, rfl,
    parseResponse_submit ["a.go", "b.go"]
      ⟨"submit_commit", .obj [("type", .str "feat"), ("subject", .str "s")]⟩ [] ""
      ⟨[⟨"feat", "", "s", "", ["a.go", "b.go"]⟩], false⟩ rfl rfl⟩

/-- Claim C8 (confirmed): when no tool call of the response bears a
recognized name, a non-empty free-form content becomes the subject of a
single untyped commit with isSplit = false and the caller's file set,
and an empty content is the fatal protocol error, returned to the
caller without any internal retry. -/
theorem parseResponse_fallback (files : List String) (tcs : List ToolCall)
    (content : String)
    (h : ∀ tc ∈ tcs, tc.name ≠ "submit_commit" ∧ tc.name ≠ "split_commits") :
    (content ≠ "" →
      parseResponse files ⟨tcs, content⟩ = .ok ⟨[⟨"", "", content, "", files⟩], false⟩) ∧
    (content = "" →
      parseResponse files ⟨tcs, content⟩ = .error "AI did not return a commit message") := by
  cases tcs with
  | nil =>
    constructor
    · intro hc
      rw [parseResponse]
      simp only [if_neg hc]
    · intro hc
      rw [parseResponse]
      simp [hc]
  | cons tc rest =>
    obtain ⟨h1, h2⟩ := h tc (by simp)
    constructor
    · intro hc
      rw [parseResponse]
      simp only [if_neg h1, if_neg h2, if_neg hc]
    · intro hc
      rw [parseResponse]
      simp [h1, h2, hc]

/-- Witness for C8: a response with one unrecognized tool call and
free-form text, and one with no tool call and no text. -/
theorem parseResponse_fallback_witness :
    parseResponse ["f.go"] ⟨[⟨"other_tool", .null⟩], "hello"⟩
        = .ok ⟨[⟨"", "", "hello", "", ["f.go"]⟩], false⟩ ∧
    parseResponse ["f.go"] ⟨[], ""⟩ = .error "AI did not return a commit message" :=
  ⟨(parseResponse_fallback ["f.go"] [⟨"other_tool", .null⟩] "hello"
      (by intro tc htc; rw [List.mem_singleton.mp htc]; exact ⟨by decide, by decide⟩)).1
      (by decide),
    (parseResponse_fallback ["f.go"] [] "" (by intro tc htc; exact absurd htc (by simp))).2 rfl⟩

/-- Claim C6 (amended): a split_commits payload that fails structural
JSON decoding (wrong shape or a wrong-typed field) is a fatal error for
the call, not downgraded to the free-form fallback; but required-field
presence is not validated: a commit object with no files key decodes
successfully with an empty files list. -/
theorem splitCommits_decode_spec :
    (∀ (files : List String) (tc : ToolCall) (rest : List ToolCall)
        (content e : String),
      tc.name = "split_commits" → unmarshalSplitCommits tc.args = .error e →
      parseResponse files ⟨tc :: rest, content⟩
          = .error ("failed to parse split commits: " ++ e)) ∧
    (∀ (fields : List (String × Jval)) (c : CommitMessage),
      jLookup fields "files" = none →
      unmarshalCommitMessage (.obj fields) = .ok c → c.files = []) := by
  constructor
  · intro files tc rest content e hname herr
    rw [parseResponse]
    simp only [hname, herr]
    simp
  · intro fields c hnone hok
    rw [unmarshalCommitMessage] at hok
    simp only [hnone, decodeFilesField] at hok
    cases h1 : decodeStringField (jLookup fields "type") with
    | error e => rw [h1] at hok; exact absurd hok (by simp [Bind.bind, Except.bind])
    | ok t =>
      cases h2 : decodeStringField (jLookup fields "scope") with
      | error e => rw [h1, h2] at hok; exact absurd hok (by simp [Bind.bind, Except.bind])
      | ok sc =>
        cases h3 : decodeStringField (jLookup fields "subject") with
        | error e => rw [h1, h2, h3] at hok; exact absurd hok (by simp [Bind.bind, Except.bind])
        | ok su =>
          cases h4 : decodeStringField (jLookup fields "body") with
          | error e => rw [h1, h2, h3, h4] at hok; exact absurd hok (by simp [Bind.bind, Except.bind])
          | ok b =>
            rw [h1, h2, h3, h4] at hok
            simp only [Bind.bind, Except.bind] at hok
            have := (Except.ok.injEq _ _).mp hok
            rw [← this]

/-- Witness for C6's amended claim: a split_commits call whose payload
is a bare string is a fatal decode error, and a commit object with only
a subject key decodes with an empty files list. -/
theorem splitCommits_decode_spec_witness :
    parseResponse ["a.go"] ⟨[⟨"split_commits", .str "oops"⟩], "txt"⟩
        = .error ("failed to parse split commits: cannot unmarshal into SplitCommits") ∧
    (⟨"", "", "s", "", []⟩ : CommitMessage).files = [] :=
  ⟨(splitCommits_decode_spec).1 ["a.go"] ⟨"split_commits", .str "oops"⟩ [] "txt"
      "cannot unmarshal into SplitCommits" rfl rfl,
    (splitCommits_decode_spec).2 [("subject", .str "s")] ⟨"", "", "s", "", []⟩ rfl rfl⟩

/-- Counterexample to claim C6 as stated: a split_commits payload whose
single commit has no files key parses successfully into a one-commit
split result with an empty files list — no ProtocolError is raised for
the missing required field. -/
theorem parseResponse_missing_files_accepted :
    parseResponse ["a.go"]
        ⟨[⟨"split_commits",
            .obj [("commits", .arr [.obj [("type", .str "feat"), ("subject", .str "x")]])]⟩], ""⟩
        = .ok ⟨[⟨"feat", "", "x", "", []⟩], true⟩ := rfl

end Commity
